import Mathlib

/-!
Verification of the agora_backend authentication token lifecycle subsystem.

The Go sources are shallowly embedded: each Go function becomes an
executable Lean definition; clock reads (`time.Now()`) become an explicit
`now : Int` argument (Unix seconds); the random-byte source becomes an
explicit argument; the Redis store becomes explicit state passing.
The HMAC-SHA256 signature of the JWT library is modelled symbolically
(a signature value records the key and the signed claims, and verification
succeeds exactly when the recomputation agrees), the standard perfect-MAC
idealisation.
-/

deriving instance DecidableEq for Except

namespace Agora

/-! ## Token codec (internal/utils, `GenerateJWT` / `DecryptJWT`)

A JWT carries the map claims `sub`, `exp`, `type`; each is optional at
decode time because a hand-crafted token may omit it. -/

structure TokenClaims where
  sub : Option String
  exp : Option Int
  typ : Option String
deriving DecidableEq, Repr

/-- Symbolic HMAC-SHA256 signature over the claims segment: records the
signing key and the signed payload; verification with key `k` succeeds on
`hmac s c` exactly when `k = s` and the payload equals `c`. -/
inductive Sig where
  | hmac (secret : String) (claims : TokenClaims)
deriving DecidableEq, Repr

/-- A candidate token string: either not a structurally valid JWS at all
(this includes the empty string, which `DecryptJWT` rejects up front), or a
well-formed three-segment JWS with a claims segment and a signature. -/
inductive TokenStr where
  | malformed (raw : String)
  | jws (claims : TokenClaims) (sig : Sig)
deriving DecidableEq, Repr

/-- The error values of internal/utils (jwt.go). -/
inductive JWTError where
  | invalidToken
  | expiredToken
  | invalidClaims
  | invalidTokenType
deriving DecidableEq, Repr

def TokenTypeAccess : String := "access"
def TokenTypeRefresh : String := "refresh"

/-- `utils.GenerateJWT(jwtSecret, tokenType, tokenLifetime, userID)`:
rejects a token type other than "access"/"refresh", otherwise signs claims
`{sub: userID, exp: now + lifetime, type: tokenType}` with HMAC-SHA256.
(`time.Now()` is the explicit `now` argument; HS256 signing itself cannot
fail.) -/
def GenerateJWT (jwtSecret tokenType : String) (tokenLifetime : Int)
    (userID : String) (now : Int) : Except JWTError TokenStr :=
  if tokenType ≠ TokenTypeAccess ∧ tokenType ≠ TokenTypeRefresh then
    .error .invalidTokenType
  else
    let claims : TokenClaims :=
      { sub := some userID, exp := some (now + tokenLifetime), typ := some tokenType }
    .ok (.jws claims (.hmac jwtSecret claims))

/-- jwt/v5 claims validation of `exp`: the token is expired when the
verification time is not strictly before `exp`; a missing `exp` claim is
not required by jwt/v5 and never counts as expired. -/
def jwtExpired (exp : Option Int) (now : Int) : Bool :=
  match exp with
  | some e => decide (e ≤ now)
  | none => false

/-- `utils.DecryptJWT(tokenString, jwtSecret, expectedTokenType)`:
empty or unparseable input → `ErrInvalidToken`; the jwt/v5 parser then
verifies the signature (mismatch → `ErrInvalidToken`) and afterwards
validates registered claims (`jwtExpired` → `ErrExpiredToken`); then the
function checks the `type` claim against `expectedTokenType`
(missing or different → `ErrInvalidTokenType`) and a non-empty string
`sub` claim (missing, non-string or empty → `ErrInvalidClaims`). -/
def DecryptJWT (tokenString : TokenStr) (jwtSecret expectedTokenType : String)
    (now : Int) : Except JWTError (String × TokenClaims) :=
  match tokenString with
  | .malformed _ => .error .invalidToken
  | .jws claims sig =>
    if sig ≠ Sig.hmac jwtSecret claims then .error .invalidToken
    else if jwtExpired claims.exp now then .error .expiredToken
    else if claims.typ ≠ some expectedTokenType then .error .invalidTokenType
    else
      match claims.sub with
      | none => .error .invalidClaims
      | some uid =>
        if uid = "" then .error .invalidClaims
        else .ok (uid, claims)

/-! ## Ephemeral keyed store (Redis) and the refresh rotation engine
(internal/auth/service.go)

The Redis client is modelled as explicit state: a list of live entries
`key ↦ (value, absolute expiry)` plus the `s.redis != nil` availability
flag.  An entry is visible while `now` is strictly before its expiry
(Redis TTL semantics).  Connectivity failures of the two store calls made
by the refresh path are modelled by explicit fault flags, because the Go
code reacts to those errors in two different ways. -/

/-- A Redis key as used by this service: the two key families are
prefix-disjoint in Go (`refresh_token_blacklist:` + token and
`password_reset:` + token), so they are modelled by two constructors. -/
inductive RKey where
  | blacklist (token : TokenStr)
  | passwordReset (token : String)
deriving DecidableEq, Repr

structure Store where
  available : Bool
  entries : List (RKey × String × Int)
deriving DecidableEq, Repr

/-- Redis `EXISTS key` at time `now`: some live entry has this key. -/
def Store.existsKey (st : Store) (now : Int) (k : RKey) : Bool :=
  st.entries.any fun e => e.1 == k && decide (now < e.2.2)

/-- Redis `SET key value ttl`: replaces any entry for `k`, expiring at
`now + ttl`. -/
def Store.setKey (st : Store) (now ttl : Int) (k : RKey) (v : String) : Store :=
  { st with entries := (k, v, now + ttl) :: st.entries.filter fun e => !(e.1 == k) }

/-- Redis `GET key` at time `now`. -/
def Store.getKey (st : Store) (now : Int) (k : RKey) : Option String :=
  (st.entries.find? fun e => e.1 == k && decide (now < e.2.2)).map (·.2.1)

/-- Redis `DEL key`. -/
def Store.delKey (st : Store) (k : RKey) : Store :=
  { st with entries := st.entries.filter fun e => !(e.1 == k) }

/-- Injected connectivity failures for the two store calls of the refresh
path: the `EXISTS` in `isTokenBlacklisted` and the `SET` in
`blacklistToken`. -/
structure StoreFaults where
  existsErr : Bool
  setErr : Bool
deriving DecidableEq, Repr

/-- `cfg.JWT` (internal/config): secret and the two lifetimes. -/
structure JWTConfig where
  secret : String
  accessLifetime : Int
  refreshLifetime : Int
deriving DecidableEq, Repr

structure TokenPair where
  accessToken : TokenStr
  refreshToken : TokenStr
deriving DecidableEq, Repr

/-- Errors of the refresh path of auth.Service. -/
inductive SvcError where
  | invalidRefreshToken
  | jwt (e : JWTError)
  | missingExpiry
  | alreadyExpired
  | storeFailure (op : String)
  | genFailure (which : String)
deriving DecidableEq, Repr

def isHexDigit (c : Char) : Bool :=
  (decide ('0' ≤ c) && decide (c ≤ '9')) || (decide ('a' ≤ c) && decide (c ≤ 'f'))
    || (decide ('A' ≤ c) && decide (c ≤ 'F'))

/-- google/uuid `Parse` restricted to the canonical 36-character form
`xxxxxxxx-xxxx-xxxx-xxxx-xxxxxxxxxxxx`: hyphens at positions 8, 13, 18,
23 and hex digits elsewhere. (The library also accepts a `urn:uuid:`
prefix, surrounding braces and a 32-digit form; no claim exercises those
inputs, so this model rejects them.) -/
def uuidParseOk (s : String) : Bool :=
  let l := s.toList
  l.length == 36 &&
    (List.range 36).all fun i =>
      if i == 8 || i == 13 || i == 18 || i == 23 then l.getD i ' ' == '-'
      else isHexDigit (l.getD i ' ')

/-- The parsed UUID value compares by byte content, so two canonical
strings denote the same UUID exactly when they agree up to letter case:
normalise to lowercase. -/
def uuidNorm (s : String) : String := ⟨s.toList.map Char.toLower⟩

/-- `Service.isTokenBlacklisted`: `nil` client → false; otherwise
`EXISTS` on `refresh_token_blacklist: + token`, and the Go code returns
`err == nil && exists > 0`, so a connectivity error of the `EXISTS` call
yields false. -/
def isTokenBlacklisted (st : Store) (now : Int) (token : TokenStr)
    (existsErr : Bool) : Bool :=
  if !st.available then false
  else !existsErr && st.existsKey now (.blacklist token)

/-- `Service.blacklistToken`: `nil` client → no-op success; re-decodes the
token, reads its `exp` claim, computes `ttl = exp - now` and, when the ttl
is still positive, `SET`s the denylist key with exactly that ttl. -/
def blacklistToken (st : Store) (now : Int) (jwtSecret : String)
    (token : TokenStr) (expectedTokenType : String) (setErr : Bool) :
    Except SvcError Store :=
  if !st.available then .ok st
  else
    match DecryptJWT token jwtSecret expectedTokenType now with
    | .error e => .error (.jwt e)
    | .ok (_, tokenClaims) =>
      match tokenClaims.exp with
      | none => .error .missingExpiry
      | some exp =>
        let ttl := exp - now
        if ttl ≤ 0 then .error .alreadyExpired
        else if setErr then .error (.storeFailure "failed to set blacklist key")
        else .ok (st.setKey now ttl (.blacklist token) "1")

/-- `Service.generateTokenPair`: two `GenerateJWT` calls with the same
subject, kind `access` with the access lifetime and kind `refresh` with
the refresh lifetime. -/
def generateTokenPair (cfg : JWTConfig) (userID : String) (now : Int) :
    Except SvcError TokenPair :=
  match GenerateJWT cfg.secret TokenTypeAccess cfg.accessLifetime userID now with
  | .error _ => .error (.genFailure "failed to generate access token")
  | .ok accessToken =>
    match GenerateJWT cfg.secret TokenTypeRefresh cfg.refreshLifetime userID now with
    | .error _ => .error (.genFailure "failed to generate refresh token")
    | .ok refreshToken => .ok { accessToken := accessToken, refreshToken := refreshToken }

/-- `Service.refreshTokens`: decode with expected kind `refresh` (failure
collapsed to `ErrInvalidRefreshToken`), reject a denylisted token, parse
the subject as a UUID and confirm it resolves to an existing account
(`users` is the directory of account ids, external collaborator), then
denylist the just-used token and mint a fresh pair. A `blacklistToken`
failure is returned as-is, not collapsed. -/
def refreshTokens (st : Store) (users : List String) (now : Int)
    (refreshToken : TokenStr) (cfg : JWTConfig) (faults : StoreFaults) :
    Except SvcError (TokenPair × Store) :=
  match DecryptJWT refreshToken cfg.secret TokenTypeRefresh now with
  | .error _ => .error .invalidRefreshToken
  | .ok (userID, _) =>
    if isTokenBlacklisted st now refreshToken faults.existsErr then
      .error .invalidRefreshToken
    else if !(uuidParseOk userID) then .error .invalidRefreshToken
    else if !(users.contains (uuidNorm userID)) then .error .invalidRefreshToken
    else
      match blacklistToken st now cfg.secret refreshToken TokenTypeRefresh faults.setErr with
      | .error e => .error e
      | .ok st' =>
        match generateTokenPair cfg userID now with
        | .error e => .error e
        | .ok pair => .ok (pair, st')

/-! ## Credential validator (internal/auth/validator.go)

Strings are Unicode; Go's `len` is the UTF-8 byte length, modelled by
`String.utf8ByteSize`.  The password regexp runs under RE2 semantics:
unanchored search, `.` matches any rune except newline. -/

/-- `unicode.IsSpace` restricted to the Latin-1 range ('\t', '\n', '\v',
'\f', '\r', ' ', U+0085, U+00A0); the remaining Unicode space runes are
omitted, no claim exercises them. -/
def goIsSpace (c : Char) : Bool :=
  c == ' ' || c == '\t' || c == '\n' || c == '\u000B' || c == '\u000C'
    || c == '\r' || c == '\u0085' || c == '\u00A0'

/-- `strings.TrimSpace`: remove leading and trailing white space. -/
def goTrimSpace (s : String) : String :=
  ⟨((s.toList.dropWhile goIsSpace).reverse.dropWhile goIsSpace).reverse⟩

/-- `fmt.Sprintf` for a template whose only verb is a single `%d`:
replaces the first `%d` with the decimal rendering of `n`. -/
def sprintfDAux : List Char → Nat → List Char
  | [], _ => []
  | '%' :: 'd' :: rest, n => (toString n).toList ++ rest
  | c :: rest, n => c :: sprintfDAux rest n

def sprintfD (template : String) (n : Nat) : String :=
  ⟨sprintfDAux template.toList n⟩

def ErrPasswordRequired : String := "password is required"
def ErrPasswordNoWhitespaces : String :=
  "password cannot have leading or trailing whitespace"
def ErrPasswordTooShort : String := "password must be at least %d characters"
/-- `ErrPasswordTooLong` is declared in the Go const block with no value,
so the compiler repeats the previous line's expression list: it equals the
`ErrPasswordTooShort` template. -/
def ErrPasswordTooLong : String := ErrPasswordTooShort
def ErrPasswordWeak : String :=
  "password must contain uppercase, lowercase, and number"
def PasswordMinLen : Nat := 8
def PasswordMaxLen : Nat := 30

/-- The regexp fragments appearing in `PasswordRegex`: an RE2 regexp over
character classes, `.*` gaps, concatenation and alternation. -/
inductive Re where
  | cls (p : Char → Bool)
  | dotStar
  | cat (a b : Re)
  | alt (a b : Re)

/-- Anchored RE2 matching of such a regexp against a whole string:
a class consumes one rune, `.*` any run of runes without a newline. -/
def reMatch : Re → List Char → Bool
  | .cls p, s =>
    match s with
    | [c] => p c
    | _ => false
  | .dotStar, s => s.all fun c => !(c == '\n')
  | .cat a b, s =>
    (List.range (s.length + 1)).any fun i =>
      reMatch a (s.take i) && reMatch b (s.drop i)
  | .alt a b, s => reMatch a s || reMatch b s

/-- Go `MatchString`: unanchored — the regexp must match some substring. -/
def reMatchString (r : Re) (s : String) : Bool :=
  (List.range (s.toList.length + 1)).any fun i =>
    (List.range (s.toList.length - i + 1)).any fun j =>
      reMatch r ((s.toList.drop i).take j)

def isUpperAZ (c : Char) : Bool := decide ('A' ≤ c) && decide (c ≤ 'Z')
def isLowerAZ (c : Char) : Bool := decide ('a' ≤ c) && decide (c ≤ 'z')
def isDigit09 (c : Char) : Bool := decide ('0' ≤ c) && decide (c ≤ '9')

/-- One alternative `[p].*[q].*[r]` of the password regexp. -/
def reSeq3 (p q r : Char → Bool) : Re :=
  .cat (.cls p) (.cat .dotStar (.cat (.cls q) (.cat .dotStar (.cls r))))

/-- `PasswordRegex` of validator.go:
`[A-Z].*[a-z].*[0-9]|[A-Z].*[0-9].*[a-z]|[a-z].*[A-Z].*[0-9]|[a-z].*[0-9].*[A-Z]|[0-9].*[A-Z].*[a-z]|[0-9].*[a-z].*[A-Z]`. -/
def PasswordRe : Re :=
  .alt (reSeq3 isUpperAZ isLowerAZ isDigit09)
    (.alt (reSeq3 isUpperAZ isDigit09 isLowerAZ)
      (.alt (reSeq3 isLowerAZ isUpperAZ isDigit09)
        (.alt (reSeq3 isLowerAZ isDigit09 isUpperAZ)
          (.alt (reSeq3 isDigit09 isUpperAZ isLowerAZ)
            (reSeq3 isDigit09 isLowerAZ isUpperAZ)))))

/-- `Validator.ValidatePasswordFormat`: empty check, surrounding
whitespace check, byte-length bounds, then the strength regexp. -/
def ValidatePasswordFormat (password : String) : Except String Unit :=
  if password == "" then .error ErrPasswordRequired
  else if !(password == goTrimSpace password) then .error ErrPasswordNoWhitespaces
  else if password.utf8ByteSize < PasswordMinLen then
    .error (sprintfD ErrPasswordTooShort PasswordMinLen)
  else if password.utf8ByteSize > PasswordMaxLen then
    .error (sprintfD ErrPasswordTooLong PasswordMaxLen)
  else if !(reMatchString PasswordRe password) then .error ErrPasswordWeak
  else .ok ()

structure ValidationError where
  field : String
  message : String
deriving DecidableEq, Repr

/-- Modelled from the spec: `Validator.ValidatePasswordResetInput` is
called by `Service.ResetPassword` but its definition is not among the
provided sources.  §4.4 step 1 says "Validate newPassword format/strength
via the Credential Validator; on failure return the validation error set
unchanged (fail fast, no store access)", and §4.5 says the validator
produces a collection of field-tagged failures: modelled as the password
format check of validator.go wrapped into that collection. -/
def ValidatePasswordResetInput (password : String) : List ValidationError :=
  match ValidatePasswordFormat password with
  | .error msg => [⟨"password", msg⟩]
  | .ok _ => []

/-! ## Password reset flow (internal/auth/service.go) -/

/-- An account record of the external user directory: id, email, and the
optional password hash (absent for accounts provisioned via OAuth).  The
memory-hard hashing collaborator is modelled as the identity on the
stored credential string; no claim inspects hash contents. -/
structure UserRec where
  id : String
  email : String
  password : Option String
deriving DecidableEq, Repr

/-- `userService.GetByEmail`: look up an account by email. -/
def getByEmail (users : List UserRec) (email : String) : Option UserRec :=
  users.find? fun u => u.email == email

/-- `userService.UpdatePassword`: replace the stored credential of the
account with this id. -/
def updatePassword (users : List UserRec) (id : String) (newPassword : String) :
    List UserRec :=
  users.map fun u => if u.id == id then { u with password := some newPassword } else u

def PasswordResetTokenLifetime : Int := 30 * 60

/-- `Service.RequestPasswordReset`: the random 32-byte URL-safe token is
the explicit `resetToken` argument; stores `password_reset:<token> ↦
email` with the fixed 30-minute TTL and dispatches the reset link through
the external email collaborator (assumed available, as the claims do;
a SET or send failure aborts the Go function and is not exercised by any
claim). -/
def RequestPasswordReset (st : Store) (now : Int) (email resetToken : String) :
    Store :=
  st.setKey now PasswordResetTokenLifetime (.passwordReset resetToken) email

inductive ResetError where
  | validation (errs : List ValidationError)
  | invalidResetToken
  | oauthAccountNoPassword
deriving DecidableEq, Repr

/-- `Service.ResetPassword`: validate the new password (fail fast), look
the token up in the store (miss → `ErrInvalidResetToken`), resolve the
stored email (miss → `ErrInvalidResetToken`), reject OAuth-only accounts,
update the credential, then delete the token key (in Go a DEL failure is
logged and swallowed; the model's DEL always succeeds). -/
def ResetPassword (st : Store) (users : List UserRec) (now : Int)
    (resetToken password : String) : Except ResetError (Store × List UserRec) :=
  match ValidatePasswordResetInput password with
  | [] =>
    match st.getKey now (.passwordReset resetToken) with
    | none => .error .invalidResetToken
    | some userEmail =>
      match getByEmail users userEmail with
      | none => .error .invalidResetToken
      | some userObj =>
        match userObj.password with
        | none => .error .oauthAccountNoPassword
        | some _ =>
          .ok (st.delKey (.passwordReset resetToken),
               updatePassword users userObj.id password)
  | errs => .error (.validation errs)

/-! ## OAuth state guard (internal/auth, `GenerateState` / `ValidateState`)

The state string is a flat character list `nonce ++ "." ++ signature`, so
single-character tampering can be expressed.  `base64url(HMAC-SHA256(key,
msg))` is modelled by `hmacB64`, a concrete collision-free keyed tag (the
perfect-MAC idealisation): it renders key and message in fixed-width hex
blocks, so it is injective in the message for a fixed key, and its output
alphabet (hex digits and the separator 'g') lies inside the base64url
alphabet — in particular it never contains '.', just like real base64url
output. -/

/-- The lowercase hex digit of a value below 16 (code 48 is '0', 87 + 10
is 'a'). -/
def hexDigit (n : Nat) : Char :=
  if n < 10 then Char.ofNat (48 + n) else Char.ofNat (87 + n)

/-- Fixed-width (8 hex digits, enough for any UInt32 code point) rendering
of one character. -/
def encChar (c : Char) : List Char :=
  [hexDigit (c.toNat / 16 ^ 7 % 16), hexDigit (c.toNat / 16 ^ 6 % 16),
   hexDigit (c.toNat / 16 ^ 5 % 16), hexDigit (c.toNat / 16 ^ 4 % 16),
   hexDigit (c.toNat / 16 ^ 3 % 16), hexDigit (c.toNat / 16 ^ 2 % 16),
   hexDigit (c.toNat / 16 % 16), hexDigit (c.toNat % 16)]

def encList (l : List Char) : List Char := (l.map encChar).flatten

/-- Symbolic `base64url(HMAC-SHA256(secret, msg))`. -/
def hmacB64 (secret : String) (msg : List Char) : List Char :=
  encList secret.toList ++ 'g' :: encList msg

/-- `auth.GenerateState(jwtSecret)`: the base64url encoding of the 32
random bytes is the explicit dot-free `randomB64` argument; the state is
`randomB64 + "." + base64url(HMAC-SHA256(jwtSecret, randomB64))`. -/
def GenerateState (jwtSecret : String) (randomB64 : List Char) : List Char :=
  randomB64 ++ '.' :: hmacB64 jwtSecret randomB64

/-- `strings.SplitN(state, ".", 2)`: split at the first '.'; `none` when
the state has no '.' at all (Go then gets one part, not two). -/
def splitFirstDot : List Char → Option (List Char × List Char)
  | [] => none
  | c :: rest =>
    if c = '.' then some ([], rest)
    else
      match splitFirstDot rest with
      | none => none
      | some (a, b) => some (c :: a, b)

inductive StateError where
  | invalidFormat
  | invalidSignature
deriving DecidableEq, Repr

/-- `auth.ValidateState(state, jwtSecret)`: two dot-separated parts
required, then the recomputed HMAC over the nonce part must equal the
supplied signature part (`hmac.Equal` is constant-time equality). -/
def ValidateState (state : List Char) (jwtSecret : String) :
    Except StateError Bool :=
  match splitFirstDot state with
  | none => .error .invalidFormat
  | some (randomB64, signatureB64) =>
    if signatureB64 == hmacB64 jwtSecret randomB64 then .ok true
    else .error .invalidSignature

/-! ## The password regexp versus class presence (C8/C9)

The six alternatives of `PasswordRegex` are ordered-subsequence checks;
because `.` does not match a newline in RE2, a match must live inside a
single newline-delimited line of the subject. -/

/-- The newline-delimited lines of a character list (maximal '\n'-free
segments, in order). -/
def splitNL : List Char → List (List Char)
  | [] => [[]]
  | c :: rest =>
    if c = '\n' then [] :: splitNL rest
    else
      match splitNL rest with
      | [] => [[c]]
      | l :: ls => (c :: l) :: ls

/-- `t` occurs as a contiguous segment of `s`. -/
def IsWithin (t s : List Char) : Prop := ∃ u v, s = u ++ (t ++ v)

/-- C2: round-trip: issuing a token with a given kind, positive lifetime
and non-empty subject, then decoding it with the same secret and expected
kind at any time strictly before issuance + lifetime, succeeds and returns
that subject together with claims sub = S, exp = issuance + L, type = K. -/
theorem jwt_round_trip (secret ty userID : String) (L t0 t : Int)
    (hsec : secret ≠ "")
    (hty : ty = TokenTypeAccess ∨ ty = TokenTypeRefresh)
    (hL : 0 < L) (hsub : userID ≠ "") (ht : t < t0 + L) :
    GenerateJWT secret ty L userID t0 =
      .ok (.jws { sub := some userID, exp := some (t0 + L), typ := some ty }
             (.hmac secret { sub := some userID, exp := some (t0 + L), typ := some ty }))
    ∧ DecryptJWT
        (.jws { sub := some userID, exp := some (t0 + L), typ := some ty }
           (.hmac secret { sub := some userID, exp := some (t0 + L), typ := some ty }))
        secret ty t =
      .ok (userID, { sub := some userID, exp := some (t0 + L), typ := some ty }) := by
  constructor
  · have hne : ¬ (ty ≠ TokenTypeAccess ∧ ty ≠ TokenTypeRefresh) := by
      rcases hty with h | h <;> simp [h]
    simp [GenerateJWT, hne]
  · simp [DecryptJWT, jwtExpired, hsub]
    omega

/-- Witness for C2 at a concrete input. -/
theorem jwt_round_trip_witness :
    GenerateJWT "testsecret" "access" 900 "u1" 0 =
      .ok (.jws { sub := some "u1", exp := some 900, typ := some "access" }
             (.hmac "testsecret" { sub := some "u1", exp := some 900, typ := some "access" }))
    ∧ DecryptJWT
        (.jws { sub := some "u1", exp := some 900, typ := some "access" }
           (.hmac "testsecret" { sub := some "u1", exp := some 900, typ := some "access" }))
        "testsecret" "access" 10 =
      .ok ("u1", { sub := some "u1", exp := some 900, typ := some "access" }) :=
  jwt_round_trip "testsecret" "access" "u1" 900 0 10 (by decide) (Or.inl rfl)
    (by decide) (by decide) (by decide)

/-- C3: expiry precedence: a token issued with lifetime L, decoded with the
correct secret at any time strictly after issuance + L, yields
`ExpiredToken` (whatever the expected kind); a signature mismatch or a
malformed token yields `InvalidToken`. -/
theorem jwt_expiry_precedence (secret ty expectedTy userID : String)
    (L t0 t : Int) (tok : TokenStr)
    (hgen : GenerateJWT secret ty L userID t0 = .ok tok)
    (ht : t0 + L < t) :
    DecryptJWT tok secret expectedTy t = .error .expiredToken
    ∧ (∀ raw : String,
        DecryptJWT (.malformed raw) secret expectedTy t = .error .invalidToken)
    ∧ (∀ (claims : TokenClaims) (sig : Sig), sig ≠ .hmac secret claims →
        DecryptJWT (.jws claims sig) secret expectedTy t = .error .invalidToken) := by
  refine ⟨?_, fun raw => rfl, fun claims sig hsig => by simp [DecryptJWT, hsig]⟩
  unfold GenerateJWT at hgen
  by_cases hty : ty ≠ TokenTypeAccess ∧ ty ≠ TokenTypeRefresh
  · simp [hty] at hgen
  · simp only [hty, if_false] at hgen
    cases hgen
    simp [DecryptJWT, jwtExpired]
    omega

/-- Witness for C3 at a concrete input. -/
theorem jwt_expiry_precedence_witness :
    DecryptJWT
      (.jws { sub := some "u1", exp := some 900, typ := some "access" }
         (.hmac "testsecret" { sub := some "u1", exp := some 900, typ := some "access" }))
      "testsecret" "refresh" 901 = .error .expiredToken
    ∧ (∀ raw : String,
        DecryptJWT (.malformed raw) "testsecret" "refresh" 901 = .error .invalidToken)
    ∧ (∀ (claims : TokenClaims) (sig : Sig), sig ≠ .hmac "testsecret" claims →
        DecryptJWT (.jws claims sig) "testsecret" "refresh" 901 = .error .invalidToken) :=
  jwt_expiry_precedence "testsecret" "access" "refresh" "u1" 900 0 901 _ rfl (by decide)

lemma generateJWT_access_eq (secret userID : String) (L t0 : Int) :
    GenerateJWT secret TokenTypeAccess L userID t0 =
      .ok (.jws { sub := some userID, exp := some (t0 + L), typ := some TokenTypeAccess }
             (.hmac secret { sub := some userID, exp := some (t0 + L), typ := some TokenTypeAccess })) := by
  unfold GenerateJWT
  rw [if_neg]
  rintro ⟨h, -⟩
  exact h rfl

lemma generateJWT_refresh_eq (secret userID : String) (L t0 : Int) :
    GenerateJWT secret TokenTypeRefresh L userID t0 =
      .ok (.jws { sub := some userID, exp := some (t0 + L), typ := some TokenTypeRefresh }
             (.hmac secret { sub := some userID, exp := some (t0 + L), typ := some TokenTypeRefresh })) := by
  unfold GenerateJWT
  rw [if_neg]
  rintro ⟨-, h⟩
  exact h rfl

lemma generateTokenPair_eq (cfg : JWTConfig) (userID : String) (now : Int) :
    generateTokenPair cfg userID now =
      .ok { accessToken :=
              .jws { sub := some userID, exp := some (now + cfg.accessLifetime),
                     typ := some TokenTypeAccess }
                (.hmac cfg.secret
                   { sub := some userID, exp := some (now + cfg.accessLifetime),
                     typ := some TokenTypeAccess }),
            refreshToken :=
              .jws { sub := some userID, exp := some (now + cfg.refreshLifetime),
                     typ := some TokenTypeRefresh }
                (.hmac cfg.secret
                   { sub := some userID, exp := some (now + cfg.refreshLifetime),
                     typ := some TokenTypeRefresh }) } := by
  unfold generateTokenPair
  rw [generateJWT_access_eq, generateJWT_refresh_eq]

lemma decryptJWT_sig_ok (secret expectedTy userID ty : String) (e t : Int)
    (hsub : userID ≠ "") (ht : t < e) (hty : ty = expectedTy) :
    DecryptJWT (.jws { sub := some userID, exp := some e, typ := some ty }
        (.hmac secret { sub := some userID, exp := some e, typ := some ty }))
      secret expectedTy t =
      .ok (userID, { sub := some userID, exp := some e, typ := some ty }) := by
  subst hty
  simp [DecryptJWT, jwtExpired, hsub]
  omega

lemma decryptJWT_expired (secret expectedTy userID ty : String) (e t : Int)
    (ht : e ≤ t) :
    DecryptJWT (.jws { sub := some userID, exp := some e, typ := some ty }
        (.hmac secret { sub := some userID, exp := some e, typ := some ty }))
      secret expectedTy t = .error .expiredToken := by
  simp [DecryptJWT, jwtExpired, ht]

lemma existsKey_setKey_self (st : Store) (now ttl t2 : Int) (k : RKey) (v : String)
    (h : t2 < now + ttl) :
    (st.setKey now ttl k v).existsKey t2 k = true := by
  simp only [Store.setKey, Store.existsKey, List.any_cons]
  rw [Bool.or_eq_true]
  left
  simp [h]

/-- C1: refresh single-use: a fresh, unexpired refresh token of an existing
account, with the store available and all store operations succeeding, is
accepted by the first `refreshTokens` call, and any sequential second call
with the same token string afterwards (in particular before the token's
natural expiry) returns `ErrInvalidRefreshToken`. -/
theorem refresh_single_use (st : Store) (users : List String) (cfg : JWTConfig)
    (userID : String) (t0 t1 : Int) (tok : TokenStr)
    (hgen : GenerateJWT cfg.secret TokenTypeRefresh cfg.refreshLifetime userID t0 = .ok tok)
    (havail : st.available = true)
    (hparse : uuidParseOk userID = true)
    (huser : users.contains (uuidNorm userID) = true)
    (hfresh : st.existsKey t1 (.blacklist tok) = false)
    (ht1 : t1 < t0 + cfg.refreshLifetime) :
    ∃ pair st',
      refreshTokens st users t1 tok cfg ⟨false, false⟩ = .ok (pair, st')
      ∧ ∀ t2, t1 ≤ t2 →
          refreshTokens st' users t2 tok cfg ⟨false, false⟩ =
            .error .invalidRefreshToken := by
  rw [generateJWT_refresh_eq] at hgen
  injection hgen with hgen
  have hsub : userID ≠ "" := by
    intro h
    rw [h] at hparse
    exact absurd hparse (by decide)
  subst hgen
  have hdec1 := decryptJWT_sig_ok cfg.secret TokenTypeRefresh userID TokenTypeRefresh
    (t0 + cfg.refreshLifetime) t1 hsub ht1 rfl
  have hbl1 : isTokenBlacklisted st t1
      (.jws { sub := some userID, exp := some (t0 + cfg.refreshLifetime),
              typ := some TokenTypeRefresh }
        (.hmac cfg.secret { sub := some userID, exp := some (t0 + cfg.refreshLifetime),
                            typ := some TokenTypeRefresh })) false = false := by
    simp [isTokenBlacklisted, havail, hfresh]
  have h1 : refreshTokens st users t1
      (.jws { sub := some userID, exp := some (t0 + cfg.refreshLifetime),
              typ := some TokenTypeRefresh }
        (.hmac cfg.secret { sub := some userID, exp := some (t0 + cfg.refreshLifetime),
                            typ := some TokenTypeRefresh })) cfg ⟨false, false⟩ =
      .ok ({ accessToken :=
               .jws { sub := some userID, exp := some (t1 + cfg.accessLifetime),
                      typ := some TokenTypeAccess }
                 (.hmac cfg.secret
                    { sub := some userID, exp := some (t1 + cfg.accessLifetime),
                      typ := some TokenTypeAccess }),
             refreshToken :=
               .jws { sub := some userID, exp := some (t1 + cfg.refreshLifetime),
                      typ := some TokenTypeRefresh }
                 (.hmac cfg.secret
                    { sub := some userID, exp := some (t1 + cfg.refreshLifetime),
                      typ := some TokenTypeRefresh }) },
            st.setKey t1 (t0 + cfg.refreshLifetime - t1)
              (.blacklist (.jws { sub := some userID, exp := some (t0 + cfg.refreshLifetime),
                                  typ := some TokenTypeRefresh }
                 (.hmac cfg.secret
                    { sub := some userID, exp := some (t0 + cfg.refreshLifetime),
                      typ := some TokenTypeRefresh }))) "1") := by
    have hbt : blacklistToken st t1 cfg.secret
        (.jws { sub := some userID, exp := some (t0 + cfg.refreshLifetime),
                typ := some TokenTypeRefresh }
          (.hmac cfg.secret { sub := some userID, exp := some (t0 + cfg.refreshLifetime),
                              typ := some TokenTypeRefresh })) TokenTypeRefresh false =
        .ok (st.setKey t1 (t0 + cfg.refreshLifetime - t1)
          (.blacklist (.jws { sub := some userID, exp := some (t0 + cfg.refreshLifetime),
                              typ := some TokenTypeRefresh }
             (.hmac cfg.secret
                { sub := some userID, exp := some (t0 + cfg.refreshLifetime),
                  typ := some TokenTypeRefresh }))) "1") := by
      unfold blacklistToken
      rw [havail, hdec1]
      simp only [Bool.not_true, Bool.false_eq_true, if_false]
      rw [if_neg (by omega : ¬ (t0 + cfg.refreshLifetime - t1 ≤ 0))]
    unfold refreshTokens
    rw [hdec1]
    simp only [hbl1, Bool.not_false, Bool.not_true, if_false, hparse, huser,
      Bool.false_eq_true]
    rw [hbt, generateTokenPair_eq]
  refine ⟨_, _, h1, ?_⟩
  intro t2 ht2
  by_cases hexp : t2 < t0 + cfg.refreshLifetime
  · have hdec2 := decryptJWT_sig_ok cfg.secret TokenTypeRefresh userID TokenTypeRefresh
      (t0 + cfg.refreshLifetime) t2 hsub hexp rfl
    unfold refreshTokens
    rw [hdec2]
    have hbl2 : isTokenBlacklisted
        (st.setKey t1 (t0 + cfg.refreshLifetime - t1)
          (.blacklist (.jws { sub := some userID, exp := some (t0 + cfg.refreshLifetime),
                              typ := some TokenTypeRefresh }
             (.hmac cfg.secret
                { sub := some userID, exp := some (t0 + cfg.refreshLifetime),
                  typ := some TokenTypeRefresh }))) "1") t2
        (.jws { sub := some userID, exp := some (t0 + cfg.refreshLifetime),
                typ := some TokenTypeRefresh }
          (.hmac cfg.secret { sub := some userID, exp := some (t0 + cfg.refreshLifetime),
                              typ := some TokenTypeRefresh })) false = true := by
      unfold isTokenBlacklisted
      simp only [Store.setKey, havail, Bool.not_true, if_false, Bool.not_false,
        Bool.true_and]
      exact existsKey_setKey_self st t1 (t0 + cfg.refreshLifetime - t1) t2 _ "1"
        (by omega)
    simp only [hbl2, if_true]
  · have hdec2 := decryptJWT_expired cfg.secret TokenTypeRefresh userID TokenTypeRefresh
      (t0 + cfg.refreshLifetime) t2 (by omega)
    unfold refreshTokens
    rw [hdec2]

/-- Witness for C1 at a concrete input. -/
theorem refresh_single_use_witness :
    ∃ pair st',
      refreshTokens ⟨true, []⟩ ["11111111-1111-1111-1111-111111111111"] 10
        (.jws { sub := some "11111111-1111-1111-1111-111111111111", exp := some 604800,
                typ := some TokenTypeRefresh }
          (.hmac "testsecret"
             { sub := some "11111111-1111-1111-1111-111111111111", exp := some 604800,
               typ := some TokenTypeRefresh }))
        ⟨"testsecret", 900, 604800⟩ ⟨false, false⟩ = .ok (pair, st')
      ∧ ∀ t2, 10 ≤ t2 →
          refreshTokens st' ["11111111-1111-1111-1111-111111111111"] t2
            (.jws { sub := some "11111111-1111-1111-1111-111111111111", exp := some 604800,
                    typ := some TokenTypeRefresh }
              (.hmac "testsecret"
                 { sub := some "11111111-1111-1111-1111-111111111111", exp := some 604800,
                   typ := some TokenTypeRefresh }))
            ⟨"testsecret", 900, 604800⟩ ⟨false, false⟩ = .error .invalidRefreshToken := by
  obtain ⟨pair, st', h1, h2⟩ := refresh_single_use ⟨true, []⟩
    ["11111111-1111-1111-1111-111111111111"] ⟨"testsecret", 900, 604800⟩
    "11111111-1111-1111-1111-111111111111" 0 10 _ (generateJWT_refresh_eq _ _ _ _)
    rfl (by decide) (by decide) (by decide) (by decide)
  exact ⟨pair, st', h1, h2⟩

lemma existsKey_delKey_self (st : Store) (now : Int) (k : RKey) :
    (st.delKey k).existsKey now k = false := by
  simp only [Store.delKey, Store.existsKey]
  rw [List.any_eq_false]
  intro e he
  rw [List.mem_filter] at he
  simp only [Bool.not_eq_eq_eq_not, Bool.not_true, beq_eq_false_iff_ne, ne_eq] at he
  simp only [Bool.and_eq_true, beq_iff_eq, decide_eq_true_eq, not_and]
  intro h
  exact absurd h he.2

lemma setKey_delKey (st : Store) (now ttl : Int) (k : RKey) (v : String) :
    (st.delKey k).setKey now ttl k v = st.setKey now ttl k v := by
  simp [Store.delKey, Store.setKey, List.filter_filter]

lemma blacklistToken_delKey (st : Store) (now : Int) (secret : String)
    (tok : TokenStr) (ty : String) (setErr : Bool)
    (havail : st.available = true) :
    blacklistToken (st.delKey (.blacklist tok)) now secret tok ty setErr =
      blacklistToken st now secret tok ty setErr := by
  unfold blacklistToken
  have havail' : (st.delKey (.blacklist tok)).available = true := havail
  rw [havail, havail']
  cases hdec : DecryptJWT tok secret ty now with
  | error e => rfl
  | ok p =>
    obtain ⟨uid, c⟩ := p
    simp only [Bool.not_true, Bool.false_eq_true, if_false]
    cases c.exp with
    | none => rfl
    | some e =>
      by_cases httl : e - now ≤ 0
      · simp [httl]
      · cases setErr
        · simp [httl, setKey_delKey]
        · simp [httl]

/-- C4 counterexample: a refresh call in which the denylist-membership
`EXISTS` fails with a store error does not surface any error: on this
concrete input (available store, valid fresh token of an existing
account) it returns a new token pair, contradicting the claim that a
store failure must surface a transient/fatal error. -/
theorem refresh_exists_failure_counterexample :
    refreshTokens ⟨true, []⟩ ["11111111-1111-1111-1111-111111111111"] 10
      (.jws { sub := some "11111111-1111-1111-1111-111111111111", exp := some 604800,
              typ := some TokenTypeRefresh }
        (.hmac "testsecret"
           { sub := some "11111111-1111-1111-1111-111111111111", exp := some 604800,
             typ := some TokenTypeRefresh }))
      ⟨"testsecret", 900, 604800⟩ ⟨true, false⟩ =
    .ok ({ accessToken :=
             .jws { sub := some "11111111-1111-1111-1111-111111111111", exp := some 910,
                    typ := some TokenTypeAccess }
               (.hmac "testsecret"
                  { sub := some "11111111-1111-1111-1111-111111111111", exp := some 910,
                    typ := some TokenTypeAccess }),
           refreshToken :=
             .jws { sub := some "11111111-1111-1111-1111-111111111111", exp := some 604810,
                    typ := some TokenTypeRefresh }
               (.hmac "testsecret"
                  { sub := some "11111111-1111-1111-1111-111111111111", exp := some 604810,
                    typ := some TokenTypeRefresh }) },
          ⟨true, [(.blacklist (.jws
                     { sub := some "11111111-1111-1111-1111-111111111111", exp := some 604800,
                       typ := some TokenTypeRefresh }
                     (.hmac "testsecret"
                        { sub := some "11111111-1111-1111-1111-111111111111",
                          exp := some 604800, typ := some TokenTypeRefresh })),
                   "1", 604800)]⟩) := by
  rfl

/-- C4 amended: a connectivity failure of the denylist `EXISTS` check is
silently treated as "not denylisted": `isTokenBlacklisted` returns false
on a failing check, and (on an available store) the whole refresh call
behaves exactly as if the token were absent from the denylist. -/
theorem refresh_exists_failure_as_absent (st : Store) (users : List String)
    (now : Int) (tok : TokenStr) (cfg : JWTConfig) (setErr : Bool)
    (havail : st.available = true) :
    isTokenBlacklisted st now tok true = false
    ∧ refreshTokens st users now tok cfg ⟨true, setErr⟩ =
        refreshTokens (st.delKey (.blacklist tok)) users now tok cfg
          ⟨false, setErr⟩ := by
  constructor
  · simp [isTokenBlacklisted]
  · unfold refreshTokens
    cases hdec : DecryptJWT tok cfg.secret TokenTypeRefresh now with
    | error e => rfl
    | ok p =>
      obtain ⟨uid, c⟩ := p
      have hl : isTokenBlacklisted st now tok true = false := by
        simp [isTokenBlacklisted]
      have hr : isTokenBlacklisted (st.delKey (.blacklist tok)) now tok false = false := by
        unfold isTokenBlacklisted
        rw [existsKey_delKey_self]
        simp
      simp only [hl, hr, Bool.false_eq_true, if_false,
        blacklistToken_delKey st now cfg.secret tok TokenTypeRefresh setErr havail]

/-- Witness for C4's amended theorem at a concrete input. -/
theorem refresh_exists_failure_as_absent_witness :
    isTokenBlacklisted ⟨true, []⟩ 0 (.malformed "x") true = false
    ∧ refreshTokens ⟨true, []⟩ [] 0 (.malformed "x") ⟨"s", 1, 2⟩ ⟨true, false⟩ =
        refreshTokens ((⟨true, []⟩ : Store).delKey (.blacklist (.malformed "x"))) [] 0
          (.malformed "x") ⟨"s", 1, 2⟩ ⟨false, false⟩ :=
  refresh_exists_failure_as_absent ⟨true, []⟩ [] 0 (.malformed "x") ⟨"s", 1, 2⟩ false rfl

/-- C5: every failure of the refresh path before the denylist write — a
token that does not decode as a valid, unexpired refresh token, a
denylisted token, a subject that does not parse as a UUID, or a subject
not resolving to an existing account — is collapsed into the single
external error `ErrInvalidRefreshToken`, with no token pair. -/
theorem refresh_error_collapse (st : Store) (users : List String) (now : Int)
    (tok : TokenStr) (cfg : JWTConfig) (faults : StoreFaults)
    (h : (∃ e, DecryptJWT tok cfg.secret TokenTypeRefresh now = .error e)
      ∨ isTokenBlacklisted st now tok faults.existsErr = true
      ∨ (∀ uid c, DecryptJWT tok cfg.secret TokenTypeRefresh now = .ok (uid, c) →
          uuidParseOk uid = false ∨ users.contains (uuidNorm uid) = false)) :
    refreshTokens st users now tok cfg faults = .error .invalidRefreshToken := by
  unfold refreshTokens
  cases hdec : DecryptJWT tok cfg.secret TokenTypeRefresh now with
  | error e => rfl
  | ok p =>
    obtain ⟨uid, c⟩ := p
    rcases h with ⟨e, he⟩ | hb | hu
    · rw [hdec] at he
      cases he
    · simp only [hb, if_true]
    · by_cases hb : isTokenBlacklisted st now tok faults.existsErr = true
      · simp only [hb, if_true]
      · rcases hu uid c hdec with h' | h'
        · simp [eq_false_of_ne_true hb, h']
        · replace h' : uuidNorm uid ∉ users := by simpa using h'
          cases huu : uuidParseOk uid <;>
            simp [eq_false_of_ne_true hb, h', huu]

/-- Witness for C5 at a concrete input (a malformed token string). -/
theorem refresh_error_collapse_witness :
    refreshTokens ⟨true, []⟩ [] 0 (.malformed "not-a-jwt") ⟨"s", 1, 2⟩ ⟨false, false⟩ =
      .error .invalidRefreshToken :=
  refresh_error_collapse ⟨true, []⟩ [] 0 (.malformed "not-a-jwt") ⟨"s", 1, 2⟩
    ⟨false, false⟩ (Or.inl ⟨.invalidToken, rfl⟩)

lemma getKey_setKey_self (st : Store) (now ttl t : Int) (k : RKey) (v : String)
    (h : t < now + ttl) :
    (st.setKey now ttl k v).getKey t k = some v := by
  unfold Store.setKey Store.getKey
  rw [List.find?_cons_of_pos]
  · rfl
  · simp [h]

lemma getKey_delKey_self (st : Store) (t : Int) (k : RKey) :
    (st.delKey k).getKey t k = none := by
  unfold Store.delKey Store.getKey
  rw [List.find?_eq_none.mpr]
  · rfl
  · intro e he
    rw [List.mem_filter] at he
    simp only [Bool.not_eq_eq_eq_not, Bool.not_true, beq_eq_false_iff_ne, ne_eq] at he
    simp only [Bool.and_eq_true, beq_iff_eq, decide_eq_true_eq, not_and]
    intro h1
    exact absurd h1 he.2

/-- C6: reset single-use: after `RequestPasswordReset` stores the token,
one `ResetPassword` with a valid password succeeds and deletes the
token-to-email mapping, so any later `ResetPassword` presenting the same
token fails with `ErrInvalidResetToken`; moreover a store miss and a
vanished account produce that same single external error. -/
theorem reset_single_use (st : Store) (users : List UserRec)
    (email resetToken password password2 : String) (u : UserRec) (hash0 : String)
    (t0 t1 : Int)
    (hval : ValidatePasswordResetInput password = [])
    (hval2 : ValidatePasswordResetInput password2 = [])
    (huser : getByEmail users email = some u)
    (hpw : u.password = some hash0)
    (ht1 : t1 < t0 + PasswordResetTokenLifetime) :
    (∃ st' users',
      ResetPassword (RequestPasswordReset st t0 email resetToken) users t1
        resetToken password = .ok (st', users')
      ∧ (∀ t2, st'.getKey t2 (.passwordReset resetToken) = none)
      ∧ (∀ t2, ResetPassword st' users' t2 resetToken password2 =
          .error .invalidResetToken))
    ∧ (∀ (st2 : Store) (users2 : List UserRec) (now2 : Int) (em : String),
        (st2.getKey now2 (.passwordReset resetToken) = none
          ∨ (st2.getKey now2 (.passwordReset resetToken) = some em
              ∧ getByEmail users2 em = none)) →
        ResetPassword st2 users2 now2 resetToken password2 =
          .error .invalidResetToken) := by
  constructor
  · refine ⟨(RequestPasswordReset st t0 email resetToken).delKey
        (.passwordReset resetToken),
      updatePassword users u.id password, ?_, fun t2 => getKey_delKey_self _ _ _, ?_⟩
    · unfold ResetPassword RequestPasswordReset
      simp only [hval, getKey_setKey_self st t0 PasswordResetTokenLifetime t1
        (.passwordReset resetToken) email ht1, huser, hpw]
    · intro t2
      unfold ResetPassword
      simp only [hval2, getKey_delKey_self]
  · intro st2 users2 now2 em h
    unfold ResetPassword
    rcases h with hmiss | ⟨hhit, hnone⟩
    · simp only [hval2, hmiss]
    · simp only [hval2, hhit, hnone]

/-- Witness for C6 at a concrete input. -/
theorem reset_single_use_witness :
    (∃ st' users',
      ResetPassword
        (RequestPasswordReset ⟨true, []⟩ 0 "a@b.com" "tok123")
        [⟨"11111111-1111-1111-1111-111111111111", "a@b.com", some "oldhash"⟩] 60
        "tok123" "Abcdefg1" = .ok (st', users')
      ∧ (∀ t2, st'.getKey t2 (.passwordReset "tok123") = none)
      ∧ (∀ t2, ResetPassword st' users' t2 "tok123" "Xyzw9876" =
          .error .invalidResetToken))
    ∧ (∀ (st2 : Store) (users2 : List UserRec) (now2 : Int) (em : String),
        (st2.getKey now2 (.passwordReset "tok123") = none
          ∨ (st2.getKey now2 (.passwordReset "tok123") = some em
              ∧ getByEmail users2 em = none)) →
        ResetPassword st2 users2 now2 "tok123" "Xyzw9876" =
          .error .invalidResetToken) :=
  reset_single_use ⟨true, []⟩
    [⟨"11111111-1111-1111-1111-111111111111", "a@b.com", some "oldhash"⟩]
    "a@b.com" "tok123" "Abcdefg1" "Xyzw9876"
    ⟨"11111111-1111-1111-1111-111111111111", "a@b.com", some "oldhash"⟩ "oldhash"
    0 60 (by decide) (by decide) (by decide) rfl (by decide)

lemma hexDigit_lt_ne_dot : ∀ m < 16, hexDigit m ≠ '.' := by decide

lemma hexDigit_inj16 : ∀ m < 16, ∀ k < 16, hexDigit m = hexDigit k → m = k := by decide

lemma encChar_not_dot (c : Char) : '.' ∉ encChar c := by
  intro h
  simp only [encChar, List.mem_cons, List.not_mem_nil, or_false] at h
  rcases h with h | h | h | h | h | h | h | h <;>
    exact hexDigit_lt_ne_dot _ (Nat.mod_lt _ (by norm_num)) h.symm

lemma encList_not_dot (l : List Char) : '.' ∉ encList l := by
  intro h
  unfold encList at h
  rw [List.mem_flatten] at h
  obtain ⟨blk, hblk, hmem⟩ := h
  rw [List.mem_map] at hblk
  obtain ⟨c, -, rfl⟩ := hblk
  exact encChar_not_dot c hmem

lemma hmacB64_not_dot (secret : String) (msg : List Char) :
    '.' ∉ hmacB64 secret msg := by
  intro h
  unfold hmacB64 at h
  rcases List.mem_append.1 h with h | h
  · exact encList_not_dot _ h
  · rcases List.mem_cons.1 h with h | h
    · exact absurd h (by decide)
    · exact encList_not_dot _ h

lemma encChar_length (c : Char) : (encChar c).length = 8 := rfl

lemma char_toNat_lt (c : Char) : c.toNat < 2 ^ 32 := UInt32.toNat_lt_size c.val

lemma encChar_inj {c1 c2 : Char} (h : encChar c1 = encChar c2) : c1 = c2 := by
  have hb1 := char_toNat_lt c1
  have hb2 := char_toNat_lt c2
  simp only [encChar, List.cons.injEq, and_true] at h
  obtain ⟨h7, h6, h5, h4, h3, h2, h1, h0⟩ := h
  have d16 : ∀ n : Nat, n % 16 < 16 := fun n => Nat.mod_lt _ (by norm_num)
  have e7 := hexDigit_inj16 _ (d16 _) _ (d16 _) h7
  have e6 := hexDigit_inj16 _ (d16 _) _ (d16 _) h6
  have e5 := hexDigit_inj16 _ (d16 _) _ (d16 _) h5
  have e4 := hexDigit_inj16 _ (d16 _) _ (d16 _) h4
  have e3 := hexDigit_inj16 _ (d16 _) _ (d16 _) h3
  have e2 := hexDigit_inj16 _ (d16 _) _ (d16 _) h2
  have e1 := hexDigit_inj16 _ (d16 _) _ (d16 _) h1
  have e0 := hexDigit_inj16 _ (d16 _) _ (d16 _) h0
  have hN : c1.toNat = c2.toNat := by omega
  exact Char.ext (by
    have : c1.val.toNat = c2.val.toNat := hN
    exact UInt32.toNat.inj this)

lemma encList_cons (c : Char) (t : List Char) :
    encList (c :: t) = encChar c ++ encList t := by
  simp [encList]

lemma encList_inj_of_length :
    ∀ {l1 l2 : List Char}, l1.length = l2.length → encList l1 = encList l2 →
      l1 = l2 := by
  intro l1
  induction l1 with
  | nil =>
    intro l2 hlen _
    cases l2 with
    | nil => rfl
    | cons c t => exact absurd hlen (by simp)
  | cons c1 t1 ih =>
    intro l2 hlen h
    cases l2 with
    | nil => exact absurd hlen (by simp)
    | cons c2 t2 =>
      rw [encList_cons, encList_cons] at h
      obtain ⟨hc, ht⟩ := List.append_inj h (by rw [encChar_length, encChar_length])
      rw [encChar_inj hc, ih (by simpa using hlen) ht]

lemma hmacB64_inj_msg {secret : String} {m1 m2 : List Char}
    (hlen : m1.length = m2.length) (h : hmacB64 secret m1 = hmacB64 secret m2) :
    m1 = m2 := by
  unfold hmacB64 at h
  have h2 := List.append_cancel_left h
  rw [List.cons.injEq] at h2
  exact encList_inj_of_length hlen h2.2

lemma splitFirstDot_append (pre post : List Char) (h : '.' ∉ pre) :
    splitFirstDot (pre ++ '.' :: post) = some (pre, post) := by
  induction pre with
  | nil => simp [splitFirstDot]
  | cons c t ih =>
    have hc : c ≠ '.' := fun e => h (e ▸ List.mem_cons_self c t)
    have ht : '.' ∉ t := fun m => h (List.mem_cons_of_mem c m)
    simp [splitFirstDot, hc, ih ht]

lemma validateState_append (pre post : List Char) (secret : String)
    (h : '.' ∉ pre) :
    ValidateState (pre ++ '.' :: post) secret =
      if post == hmacB64 secret pre then .ok true
      else .error .invalidSignature := by
  unfold ValidateState
  rw [splitFirstDot_append _ _ h]

/-- C7: state tamper-evidence: validating an untouched generated state
succeeds, and changing any single character of either the nonce segment or
the signature segment (any position other than the separator) makes
validation fail.  The nonce argument is the base64url rendering of the 32
random bytes, hence dot-free. -/
theorem state_tamper_evidence (jwtSecret : String) (nonce : List Char)
    (hnd : '.' ∉ nonce) :
    ValidateState (GenerateState jwtSecret nonce) jwtSecret = .ok true
    ∧ ∀ (i : Nat) (c : Char),
        i < (GenerateState jwtSecret nonce).length →
        i ≠ nonce.length →
        c ≠ (GenerateState jwtSecret nonce).getD i ' ' →
        ∃ e, ValidateState ((GenerateState jwtSecret nonce).set i c) jwtSecret =
          .error e := by
  constructor
  · unfold GenerateState
    rw [validateState_append _ _ _ hnd]
    simp
  · intro i c hi hne hc
    by_cases hlt : i < nonce.length
    · -- tampering inside the nonce segment
      have hset : (GenerateState jwtSecret nonce).set i c =
          nonce.set i c ++ '.' :: hmacB64 jwtSecret nonce := by
        unfold GenerateState
        exact List.set_append_left i c hlt
      by_cases hcdot : c = '.'
      · subst hcdot
        have hsplit : nonce.set i '.' = nonce.take i ++ '.' :: nonce.drop (i + 1) :=
          List.set_eq_take_cons_drop _ hlt
        refine ⟨.invalidSignature, ?_⟩
        rw [hset, hsplit, List.append_assoc, List.cons_append]
        rw [validateState_append _ _ _ (fun hmem => hnd (List.mem_of_mem_take hmem))]
        rw [if_neg]
        intro hbeq
        have heq := eq_of_beq hbeq
        have : ('.' : Char) ∈ hmacB64 jwtSecret (nonce.take i) := by
          rw [← heq]
          exact List.mem_append.2 (Or.inr (List.mem_cons_self _ _))
        exact hmacB64_not_dot _ _ this
      · have hnd' : '.' ∉ nonce.set i c := by
          intro hmem
          rcases List.mem_or_eq_of_mem_set hmem with h | h
          · exact hnd h
          · exact hcdot h.symm
        refine ⟨.invalidSignature, ?_⟩
        rw [hset, validateState_append _ _ _ hnd']
        rw [if_neg]
        intro hbeq
        have heq := eq_of_beq hbeq
        have h2 : nonce = nonce.set i c :=
          hmacB64_inj_msg (by rw [List.length_set]) heq
        have hold : (GenerateState jwtSecret nonce).getD i ' ' = nonce.getD i ' ' := by
          unfold GenerateState
          exact List.getD_append _ _ _ _ hlt
        have hnew : (nonce.set i c).getD i ' ' = c := by
          rw [List.getD_eq_getElem _ _ (by rw [List.length_set]; exact hlt)]
          exact List.getElem_set_self _
        rw [← h2] at hnew
        exact hc (by rw [hold, ← hnew])
    · -- tampering inside the signature segment
      have hge : nonce.length ≤ i := by omega
      have hgt : nonce.length < i := by omega
      have hlen : (GenerateState jwtSecret nonce).length =
          nonce.length + 1 + (hmacB64 jwtSecret nonce).length := by
        unfold GenerateState
        simp [List.length_append]
        omega
      have hjlt : i - nonce.length - 1 < (hmacB64 jwtSecret nonce).length := by
        omega
      have hset : (GenerateState jwtSecret nonce).set i c =
          nonce ++ '.' :: (hmacB64 jwtSecret nonce).set (i - nonce.length - 1) c := by
        unfold GenerateState
        rw [List.set_append_right i c hge]
        congr 1
        have : i - nonce.length = (i - nonce.length - 1) + 1 := by omega
        rw [this]
        rfl
      refine ⟨.invalidSignature, ?_⟩
      rw [hset, validateState_append _ _ _ hnd]
      rw [if_neg]
      intro hbeq
      have heq := eq_of_beq hbeq
      have hold : (GenerateState jwtSecret nonce).getD i ' ' =
          (hmacB64 jwtSecret nonce).getD (i - nonce.length - 1) ' ' := by
        unfold GenerateState
        rw [List.getD_append_right _ _ _ _ hge]
        have : i - nonce.length = (i - nonce.length - 1) + 1 := by omega
        rw [this]
        rfl
      have hnew : ((hmacB64 jwtSecret nonce).set (i - nonce.length - 1) c).getD
          (i - nonce.length - 1) ' ' = c := by
        rw [List.getD_eq_getElem _ _ (by rw [List.length_set]; exact hjlt)]
        exact List.getElem_set_self _
      rw [heq] at hnew
      apply hc
      rw [hold]
      exact hnew.symm

/-- Witness for C7 at a concrete input. -/
theorem state_tamper_evidence_witness :
    ValidateState (GenerateState "testsecret" ['a', 'b']) "testsecret" = .ok true
    ∧ ∀ (i : Nat) (c : Char),
        i < (GenerateState "testsecret" ['a', 'b']).length →
        i ≠ (['a', 'b'] : List Char).length →
        c ≠ (GenerateState "testsecret" ['a', 'b']).getD i ' ' →
        ∃ e, ValidateState ((GenerateState "testsecret" ['a', 'b']).set i c)
          "testsecret" = .error e :=
  state_tamper_evidence "testsecret" ['a', 'b'] (by decide)

lemma within_trans {t l s : List Char} (h1 : IsWithin t l) (h2 : IsWithin l s) :
    IsWithin t s := by
  obtain ⟨u1, v1, rfl⟩ := h1
  obtain ⟨u2, v2, rfl⟩ := h2
  exact ⟨u2 ++ u1, v1 ++ v2, by simp [List.append_assoc]⟩

lemma within_subset {t s : List Char} (h : IsWithin t s) {c : Char}
    (hc : c ∈ t) : c ∈ s := by
  obtain ⟨u, v, rfl⟩ := h
  exact List.mem_append.2 (Or.inr (List.mem_append.2 (Or.inl hc)))

lemma reMatch_cls (p : Char → Bool) (s : List Char) :
    reMatch (.cls p) s = true ↔ ∃ c, s = [c] ∧ p c = true := by
  match s with
  | [] => simp [reMatch]
  | [c] => simp [reMatch]
  | c :: c2 :: t => simp [reMatch]

lemma reMatch_dotStar (s : List Char) :
    reMatch .dotStar s = true ↔ '\n' ∉ s := by
  rw [show reMatch .dotStar s = s.all fun c => !(c == '\n') from rfl]
  rw [List.all_eq_true]
  constructor
  · intro h hmem
    have := h '\n' hmem
    simp at this
  · intro h c hc
    simp only [Bool.not_eq_eq_eq_not, Bool.not_true, beq_eq_false_iff_ne, ne_eq]
    intro e
    exact h (e ▸ hc)

lemma reMatch_cat (a b : Re) (s : List Char) :
    reMatch (.cat a b) s = true ↔
      ∃ t1 t2, s = t1 ++ t2 ∧ reMatch a t1 = true ∧ reMatch b t2 = true := by
  rw [show reMatch (.cat a b) s =
    ((List.range (s.length + 1)).any fun i =>
      reMatch a (s.take i) && reMatch b (s.drop i)) from rfl]
  rw [List.any_eq_true]
  constructor
  · rintro ⟨i, -, hab⟩
    rw [Bool.and_eq_true] at hab
    exact ⟨s.take i, s.drop i, (List.take_append_drop i s).symm, hab.1, hab.2⟩
  · rintro ⟨t1, t2, rfl, h1, h2⟩
    refine ⟨t1.length, ?_, ?_⟩
    · rw [List.mem_range, List.length_append]
      omega
    · rw [List.take_left, List.drop_left, h1, h2]
      rfl

lemma reMatch_alt (a b : Re) (s : List Char) :
    reMatch (.alt a b) s = true ↔ reMatch a s = true ∨ reMatch b s = true := by
  rw [show reMatch (.alt a b) s = (reMatch a s || reMatch b s) from rfl]
  exact (Bool.or_eq_true _ _) ▸ Iff.rfl

lemma reMatch_seq3 (p q r : Char → Bool) (s : List Char) :
    reMatch (reSeq3 p q r) s = true ↔
      ∃ c1 u c2 v c3, s = c1 :: (u ++ (c2 :: (v ++ [c3])))
        ∧ p c1 = true ∧ q c2 = true ∧ r c3 = true ∧ '\n' ∉ u ∧ '\n' ∉ v := by
  unfold reSeq3
  rw [reMatch_cat]
  constructor
  · rintro ⟨t1, t2, rfl, h1, h2⟩
    obtain ⟨c1, rfl, hp⟩ := (reMatch_cls _ _).1 h1
    obtain ⟨u, t3, rfl, hu, h3⟩ := (reMatch_cat _ _ _).1 h2
    obtain ⟨t4, t5, rfl, h4, h5⟩ := (reMatch_cat _ _ _).1 h3
    obtain ⟨c2, rfl, hq⟩ := (reMatch_cls _ _).1 h4
    obtain ⟨v, t6, rfl, hv, h6⟩ := (reMatch_cat _ _ _).1 h5
    obtain ⟨c3, rfl, hr⟩ := (reMatch_cls _ _).1 h6
    exact ⟨c1, u, c2, v, c3, rfl, hp, hq, hr,
      (reMatch_dotStar u).1 hu, (reMatch_dotStar v).1 hv⟩
  · rintro ⟨c1, u, c2, v, c3, rfl, hp, hq, hr, hu, hv⟩
    exact ⟨[c1], u ++ (c2 :: (v ++ [c3])), rfl,
      (reMatch_cls _ _).2 ⟨c1, rfl, hp⟩,
      (reMatch_cat _ _ _).2 ⟨u, c2 :: (v ++ [c3]), rfl, (reMatch_dotStar u).2 hu,
        (reMatch_cat _ _ _).2 ⟨[c2], v ++ [c3], rfl,
          (reMatch_cls _ _).2 ⟨c2, rfl, hq⟩,
          (reMatch_cat _ _ _).2 ⟨v, [c3], rfl, (reMatch_dotStar v).2 hv,
            (reMatch_cls _ _).2 ⟨c3, rfl, hr⟩⟩⟩⟩⟩

lemma reMatchString_iff (r : Re) (s : String) :
    reMatchString r s = true ↔
      ∃ t, IsWithin t s.toList ∧ reMatch r t = true := by
  unfold reMatchString
  rw [List.any_eq_true]
  constructor
  · rintro ⟨i, -, hj⟩
    rw [List.any_eq_true] at hj
    obtain ⟨j, -, hm⟩ := hj
    refine ⟨(s.toList.drop i).take j,
      ⟨s.toList.take i, (s.toList.drop i).drop j, ?_⟩, hm⟩
    rw [List.take_append_drop, List.take_append_drop]
  · rintro ⟨t, ⟨u, v, hs⟩, hm⟩
    have hlen : s.toList.length = u.length + (t.length + v.length) := by
      rw [hs]
      simp [List.length_append]
    refine ⟨u.length, by rw [List.mem_range]; omega, ?_⟩
    rw [List.any_eq_true]
    refine ⟨t.length, by rw [List.mem_range]; omega, ?_⟩
    rw [hs, List.drop_left, List.take_left, hm]

lemma splitNL_ne_nil (s : List Char) : splitNL s ≠ [] := by
  cases s with
  | nil => simp [splitNL]
  | cons c rest =>
    unfold splitNL
    by_cases hc : c = '\n'
    · simp [hc]
    · simp only [hc, if_false]
      cases splitNL rest <;> simp

lemma splitNL_no_newline : ∀ s : List Char, ∀ l ∈ splitNL s, '\n' ∉ l := by
  intro s
  induction s with
  | nil =>
    intro l hl
    simp [splitNL] at hl
    simp [hl]
  | cons c rest ih =>
    intro l hl
    unfold splitNL at hl
    by_cases hc : c = '\n'
    · rw [if_pos hc] at hl
      rcases List.mem_cons.1 hl with rfl | hl
      · simp
      · exact ih l hl
    · rw [if_neg hc] at hl
      cases hsp : splitNL rest with
      | nil => exact absurd hsp (splitNL_ne_nil rest)
      | cons l0 ls =>
        rw [hsp] at hl
        rcases List.mem_cons.1 hl with rfl | hl
        · intro hmem
          rcases List.mem_cons.1 hmem with h | h
          · exact hc h.symm
          · exact ih l0 (hsp ▸ List.mem_cons_self _ _) h
        · exact ih l (hsp ▸ List.mem_cons_of_mem _ hl)

lemma splitNL_head_prefix :
    ∀ (s l0 : List Char) (ls : List (List Char)), splitNL s = l0 :: ls →
      ∃ v, s = l0 ++ v := by
  intro s
  induction s with
  | nil =>
    intro l0 ls h
    simp [splitNL] at h
    exact ⟨[], by simp [h.1.symm]⟩
  | cons c rest ih =>
    intro l0 ls h
    unfold splitNL at h
    by_cases hc : c = '\n'
    · rw [if_pos hc] at h
      rw [List.cons.injEq] at h
      exact ⟨c :: rest, by rw [← h.1]; rfl⟩
    · rw [if_neg hc] at h
      cases hsp : splitNL rest with
      | nil => exact absurd hsp (splitNL_ne_nil rest)
      | cons m0 ms =>
        rw [hsp, List.cons.injEq] at h
        obtain ⟨v, hv⟩ := ih m0 ms hsp
        exact ⟨v, by rw [← h.1, hv]; rfl⟩

lemma mem_splitNL_within : ∀ s l : List Char, l ∈ splitNL s → IsWithin l s := by
  intro s
  induction s with
  | nil =>
    intro l hl
    simp [splitNL] at hl
    exact ⟨[], [], by simp [hl]⟩
  | cons c rest ih =>
    intro l hl
    unfold splitNL at hl
    by_cases hc : c = '\n'
    · rw [if_pos hc] at hl
      rcases List.mem_cons.1 hl with rfl | hl
      · exact ⟨[], c :: rest, rfl⟩
      · obtain ⟨u, v, hv⟩ := ih l hl
        exact ⟨c :: u, v, by rw [hv]; rfl⟩
    · rw [if_neg hc] at hl
      cases hsp : splitNL rest with
      | nil => exact absurd hsp (splitNL_ne_nil rest)
      | cons l0 ls =>
        rw [hsp] at hl
        rcases List.mem_cons.1 hl with rfl | hl
        · obtain ⟨v, hv⟩ := splitNL_head_prefix rest l0 ls hsp
          exact ⟨[], v, by rw [hv]; rfl⟩
        · obtain ⟨u, v, hv⟩ := ih l (hsp ▸ List.mem_cons_of_mem _ hl)
          exact ⟨c :: u, v, by rw [hv]; rfl⟩

lemma splitNL_prefix_nonl :
    ∀ (t v : List Char), '\n' ∉ t →
      ∃ w ls, splitNL (t ++ v) = (t ++ w) :: ls := by
  intro t
  induction t with
  | nil =>
    intro v _
    cases hsp : splitNL v with
    | nil => exact absurd hsp (splitNL_ne_nil v)
    | cons l0 ls => exact ⟨l0, ls, by simpa using hsp⟩
  | cons c t' ih =>
    intro v hn
    have hc : c ≠ '\n' := fun e => hn (e ▸ List.mem_cons_self c t')
    have ht' : '\n' ∉ t' := fun m => hn (List.mem_cons_of_mem c m)
    obtain ⟨w, ls, hw⟩ := ih v ht'
    refine ⟨w, ls, ?_⟩
    rw [List.cons_append]
    unfold splitNL
    rw [if_neg (fun e => hc e), hw]
    rfl

lemma within_nonl_line :
    ∀ (s t : List Char), IsWithin t s → '\n' ∉ t →
      ∃ l ∈ splitNL s, IsWithin t l := by
  intro s
  suffices h : ∀ (u t v : List Char), '\n' ∉ t →
      ∃ l ∈ splitNL (u ++ (t ++ v)), IsWithin t l by
    rintro t ⟨u, v, rfl⟩ hn
    exact h u t v hn
  intro u
  induction u with
  | nil =>
    intro t v hn
    obtain ⟨w, ls, hw⟩ := splitNL_prefix_nonl t v hn
    rw [List.nil_append, hw]
    exact ⟨t ++ w, List.mem_cons_self _ _, ⟨[], w, rfl⟩⟩
  | cons a u' ih =>
    intro t v hn
    obtain ⟨l, hl, hwithin⟩ := ih t v hn
    rw [List.cons_append]
    unfold splitNL
    by_cases ha : a = '\n'
    · rw [if_pos ha]
      exact ⟨l, List.mem_cons_of_mem _ hl, hwithin⟩
    · rw [if_neg ha]
      cases hsp : splitNL (u' ++ (t ++ v)) with
      | nil => exact absurd hsp (splitNL_ne_nil _)
      | cons l0 ls =>
        rw [hsp] at hl
        rcases List.mem_cons.1 hl with heq | hl
        · obtain ⟨u2, v2, hv2⟩ := hwithin
          refine ⟨a :: l0, List.mem_cons_self _ _, ⟨a :: u2, v2, ?_⟩⟩
          rw [← heq, hv2]
          rfl
        · exact ⟨l, List.mem_cons_of_mem _ hl, hwithin⟩

lemma splitNL_of_nonl {l : List Char} (h : '\n' ∉ l) : splitNL l = [l] := by
  induction l with
  | nil => rfl
  | cons c t ih =>
    have hc : c ≠ '\n' := fun e => h (e ▸ List.mem_cons_self c t)
    have ht : '\n' ∉ t := fun m => h (List.mem_cons_of_mem c m)
    unfold splitNL
    rw [if_neg hc, ih ht]

lemma exists_first_split (pr : Char → Bool) :
    ∀ l : List Char, l.any pr = true →
      ∃ a c b, l = a ++ (c :: b) ∧ pr c = true
        ∧ a.all (fun x => !(pr x)) = true := by
  intro l
  induction l with
  | nil => intro h; simp at h
  | cons d t ih =>
    intro h
    by_cases hd : pr d = true
    · exact ⟨[], d, t, rfl, hd, rfl⟩
    · rw [List.any_cons, Bool.or_eq_true] at h
      have ht : t.any pr = true := by
        rcases h with h | h
        · exact absurd h hd
        · exact h
      obtain ⟨a, c, b, heq, hc, hall⟩ := ih ht
      refine ⟨d :: a, c, b, by rw [heq]; rfl, hc, ?_⟩
      rw [List.all_cons, Bool.and_eq_true]
      exact ⟨by rw [eq_false_of_ne_true hd]; rfl, hall⟩

lemma any_tail_of_first {x P : Char → Bool} {a : List Char} {c1 : Char}
    {rest : List Char}
    (hx : (a ++ (c1 :: rest)).any x = true)
    (hall : a.all (fun ch => !(P ch)) = true)
    (himp : ∀ ch, x ch = true → P ch = true)
    (hc1 : x c1 = false) :
    rest.any x = true := by
  rw [List.any_append, Bool.or_eq_true] at hx
  rcases hx with hx | hx
  · exfalso
    rw [List.any_eq_true] at hx
    obtain ⟨ch, hmem, hch⟩ := hx
    rw [List.all_eq_true] at hall
    have h2 := hall ch hmem
    rw [himp ch hch] at h2
    simp at h2
  · rw [List.any_cons, Bool.or_eq_true] at hx
    rcases hx with hx | hx
    · rw [hc1] at hx
      exact absurd hx (by simp)
    · exact hx

lemma exists_two_ordered {q r : Char → Bool}
    (hqr : ∀ c, ¬(q c = true ∧ r c = true)) (l : List Char)
    (hq : l.any q = true) (hr : l.any r = true) :
    ∃ u c2 v c3 b, l = u ++ (c2 :: (v ++ (c3 :: b)))
      ∧ ((q c2 = true ∧ r c3 = true) ∨ (r c2 = true ∧ q c3 = true)) := by
  obtain ⟨u, c2, rest, rfl, hc2, hall⟩ :=
    exists_first_split (fun c => q c || r c) l (by
      rw [List.any_eq_true] at hq ⊢
      obtain ⟨x, hmem, hx⟩ := hq
      exact ⟨x, hmem, by rw [hx]; rfl⟩)
  rw [Bool.or_eq_true] at hc2
  rcases hc2 with hq2 | hr2
  · have hrrest : rest.any r = true := by
      refine any_tail_of_first hr hall (fun ch hch => by rw [hch, Bool.or_true]) ?_
      rcases hhh : r c2 with _ | _
      · rfl
      · exact absurd ⟨hq2, hhh⟩ (hqr c2)
    obtain ⟨v, c3, b, rfl, hc3, -⟩ := exists_first_split r rest hrrest
    exact ⟨u, c2, v, c3, b, rfl, Or.inl ⟨hq2, hc3⟩⟩
  · have hqrest : rest.any q = true := by
      refine any_tail_of_first hq hall (fun ch hch => by rw [hch, Bool.true_or]) ?_
      rcases hhh : q c2 with _ | _
      · rfl
      · exact absurd ⟨hhh, hr2⟩ (hqr c2)
    obtain ⟨v, c3, b, rfl, hc3, -⟩ := exists_first_split q rest hqrest
    exact ⟨u, c2, v, c3, b, rfl, Or.inr ⟨hr2, hc3⟩⟩

lemma exists_three_ordered {p q r : Char → Bool}
    (hpq : ∀ c, ¬(p c = true ∧ q c = true))
    (hpr : ∀ c, ¬(p c = true ∧ r c = true))
    (hqr : ∀ c, ¬(q c = true ∧ r c = true))
    (l : List Char)
    (hp : l.any p = true) (hq : l.any q = true) (hr : l.any r = true) :
    ∃ a c1 u c2 v c3 b, l = a ++ (c1 :: (u ++ (c2 :: (v ++ (c3 :: b)))))
      ∧ ((p c1 = true ∧ ((q c2 = true ∧ r c3 = true) ∨ (r c2 = true ∧ q c3 = true)))
        ∨ (q c1 = true ∧ ((p c2 = true ∧ r c3 = true) ∨ (r c2 = true ∧ p c3 = true)))
        ∨ (r c1 = true ∧ ((p c2 = true ∧ q c3 = true) ∨ (q c2 = true ∧ p c3 = true)))) := by
  obtain ⟨a, c1, rest, rfl, hc1, hall⟩ :=
    exists_first_split (fun c => p c || q c || r c) l (by
      rw [List.any_eq_true] at hp ⊢
      obtain ⟨x, hmem, hx⟩ := hp
      exact ⟨x, hmem, by rw [hx]; rfl⟩)
  have hbool : p c1 = true ∨ q c1 = true ∨ r c1 = true := by
    rw [Bool.or_eq_true, Bool.or_eq_true] at hc1
    tauto
  rcases hbool with h1 | h1 | h1
  · have hq' : rest.any q = true := by
      refine any_tail_of_first hq hall
        (fun ch hch => by rw [hch, Bool.or_true, Bool.true_or]) ?_
      rcases hhh : q c1 with _ | _
      · rfl
      · exact absurd ⟨h1, hhh⟩ (hpq c1)
    have hr' : rest.any r = true := by
      refine any_tail_of_first hr hall (fun ch hch => by rw [hch, Bool.or_true]) ?_
      rcases hhh : r c1 with _ | _
      · rfl
      · exact absurd ⟨h1, hhh⟩ (hpr c1)
    obtain ⟨u, c2, v, c3, b, rfl, hcase⟩ := exists_two_ordered hqr rest hq' hr'
    exact ⟨a, c1, u, c2, v, c3, b, rfl, Or.inl ⟨h1, hcase⟩⟩
  · have hp' : rest.any p = true := by
      refine any_tail_of_first hp hall
        (fun ch hch => by rw [hch, Bool.true_or, Bool.true_or]) ?_
      rcases hhh : p c1 with _ | _
      · rfl
      · exact absurd ⟨hhh, h1⟩ (hpq c1)
    have hr' : rest.any r = true := by
      refine any_tail_of_first hr hall (fun ch hch => by rw [hch, Bool.or_true]) ?_
      rcases hhh : r c1 with _ | _
      · rfl
      · exact absurd ⟨h1, hhh⟩ (hqr c1)
    obtain ⟨u, c2, v, c3, b, rfl, hcase⟩ := exists_two_ordered hpr rest hp' hr'
    exact ⟨a, c1, u, c2, v, c3, b, rfl, Or.inr (Or.inl ⟨h1, hcase⟩)⟩
  · have hp' : rest.any p = true := by
      refine any_tail_of_first hp hall
        (fun ch hch => by rw [hch, Bool.true_or, Bool.true_or]) ?_
      rcases hhh : p c1 with _ | _
      · rfl
      · exact absurd ⟨hhh, h1⟩ (hpr c1)
    have hq' : rest.any q = true := by
      refine any_tail_of_first hq hall
        (fun ch hch => by rw [hch, Bool.or_true, Bool.true_or]) ?_
      rcases hhh : q c1 with _ | _
      · rfl
      · exact absurd ⟨hhh, h1⟩ (hqr c1)
    obtain ⟨u, c2, v, c3, b, rfl, hcase⟩ := exists_two_ordered hpq rest hp' hq'
    exact ⟨a, c1, u, c2, v, c3, b, rfl, Or.inr (Or.inr ⟨h1, hcase⟩)⟩

lemma upper_lower_disj (c : Char) : ¬(isUpperAZ c = true ∧ isLowerAZ c = true) := by
  rintro ⟨h1, h2⟩
  unfold isUpperAZ at h1
  unfold isLowerAZ at h2
  rw [Bool.and_eq_true, decide_eq_true_eq, decide_eq_true_eq] at h1 h2
  exact absurd (le_trans h2.1 h1.2) (by decide)

lemma upper_digit_disj (c : Char) : ¬(isUpperAZ c = true ∧ isDigit09 c = true) := by
  rintro ⟨h1, h2⟩
  unfold isUpperAZ at h1
  unfold isDigit09 at h2
  rw [Bool.and_eq_true, decide_eq_true_eq, decide_eq_true_eq] at h1 h2
  exact absurd (le_trans h1.1 h2.2) (by decide)

lemma lower_digit_disj (c : Char) : ¬(isLowerAZ c = true ∧ isDigit09 c = true) := by
  rintro ⟨h1, h2⟩
  unfold isLowerAZ at h1
  unfold isDigit09 at h2
  rw [Bool.and_eq_true, decide_eq_true_eq, decide_eq_true_eq] at h1 h2
  exact absurd (le_trans h1.1 h2.2) (by decide)

lemma ne_nl_of_class {p : Char → Bool} (hn : p '\n' = false) {c : Char}
    (hc : p c = true) : c ≠ '\n' := by
  intro e
  rw [e, hn] at hc
  exact absurd hc (by simp)

lemma seq3_line {p q r : Char → Bool} {s t : List Char}
    (hpn : p '\n' = false) (hqn : q '\n' = false) (hrn : r '\n' = false)
    (hw : IsWithin t s) (hm : reMatch (reSeq3 p q r) t = true) :
    ∃ l ∈ splitNL s, l.any p = true ∧ l.any q = true ∧ l.any r = true := by
  obtain ⟨c1, u, c2, v, c3, rfl, hp, hq, hr, hu, hv⟩ := (reMatch_seq3 p q r t).1 hm
  have hnt : '\n' ∉ (c1 :: (u ++ (c2 :: (v ++ [c3])))) := by
    intro hmem
    rcases List.mem_cons.1 hmem with h | h
    · exact ne_nl_of_class hpn hp h.symm
    rcases List.mem_append.1 h with h | h
    · exact hu h
    rcases List.mem_cons.1 h with h | h
    · exact ne_nl_of_class hqn hq h.symm
    rcases List.mem_append.1 h with h | h
    · exact hv h
    · rcases List.mem_cons.1 h with h | h
      · exact ne_nl_of_class hrn hr h.symm
      · simp at h
  obtain ⟨l, hl, hwl⟩ := within_nonl_line s _ hw hnt
  refine ⟨l, hl, ?_, ?_, ?_⟩
  · exact List.any_eq_true.2 ⟨c1, within_subset hwl (List.mem_cons_self _ _), hp⟩
  · exact List.any_eq_true.2 ⟨c2, within_subset hwl (by simp), hq⟩
  · exact List.any_eq_true.2 ⟨c3, within_subset hwl (by simp), hr⟩

lemma passwordRe_iff_line (s : String) :
    reMatchString PasswordRe s = true ↔
      ∃ l ∈ splitNL s.toList,
        l.any isUpperAZ = true ∧ l.any isLowerAZ = true ∧ l.any isDigit09 = true := by
  rw [reMatchString_iff]
  constructor
  · rintro ⟨t, hw, hm⟩
    unfold PasswordRe at hm
    rcases (reMatch_alt _ _ _).1 hm with h | hm
    · exact seq3_line (by decide) (by decide) (by decide) hw h
    rcases (reMatch_alt _ _ _).1 hm with h | hm
    · obtain ⟨l, hl, hU, hD, hL⟩ := seq3_line (by decide) (by decide) (by decide) hw h
      exact ⟨l, hl, hU, hL, hD⟩
    rcases (reMatch_alt _ _ _).1 hm with h | hm
    · obtain ⟨l, hl, hL, hU, hD⟩ := seq3_line (by decide) (by decide) (by decide) hw h
      exact ⟨l, hl, hU, hL, hD⟩
    rcases (reMatch_alt _ _ _).1 hm with h | hm
    · obtain ⟨l, hl, hL, hD, hU⟩ := seq3_line (by decide) (by decide) (by decide) hw h
      exact ⟨l, hl, hU, hL, hD⟩
    rcases (reMatch_alt _ _ _).1 hm with h | h
    · obtain ⟨l, hl, hD, hU, hL⟩ := seq3_line (by decide) (by decide) (by decide) hw h
      exact ⟨l, hl, hU, hL, hD⟩
    · obtain ⟨l, hl, hD, hL, hU⟩ := seq3_line (by decide) (by decide) (by decide) hw h
      exact ⟨l, hl, hU, hL, hD⟩
  · rintro ⟨l, hl, hU, hL, hD⟩
    have hnol : '\n' ∉ l := splitNL_no_newline _ l hl
    have hwl : IsWithin l s.toList := mem_splitNL_within _ l hl
    obtain ⟨a, c1, u, c2, v, c3, b, heq, hcase⟩ :=
      exists_three_ordered upper_lower_disj upper_digit_disj lower_digit_disj l hU hL hD
    have hu : '\n' ∉ u := fun hm => hnol (by rw [heq]; simp [hm])
    have hv : '\n' ∉ v := fun hm => hnol (by rw [heq]; simp [hm])
    have hwt : IsWithin (c1 :: (u ++ (c2 :: (v ++ [c3])))) s.toList := by
      apply within_trans _ hwl
      refine ⟨a, b, ?_⟩
      rw [heq]
      simp [List.append_assoc]
    refine ⟨c1 :: (u ++ (c2 :: (v ++ [c3]))), hwt, ?_⟩
    unfold PasswordRe
    rcases hcase with ⟨h1, ⟨h2, h3⟩ | ⟨h2, h3⟩⟩ | ⟨h1, ⟨h2, h3⟩ | ⟨h2, h3⟩⟩
      | ⟨h1, ⟨h2, h3⟩ | ⟨h2, h3⟩⟩
    · rw [reMatch_alt]
      exact Or.inl ((reMatch_seq3 _ _ _ _).2
        ⟨c1, u, c2, v, c3, rfl, h1, h2, h3, hu, hv⟩)
    · rw [reMatch_alt]
      refine Or.inr ?_
      rw [reMatch_alt]
      exact Or.inl ((reMatch_seq3 _ _ _ _).2
        ⟨c1, u, c2, v, c3, rfl, h1, h2, h3, hu, hv⟩)
    · rw [reMatch_alt]
      refine Or.inr ?_
      rw [reMatch_alt]
      refine Or.inr ?_
      rw [reMatch_alt]
      exact Or.inl ((reMatch_seq3 _ _ _ _).2
        ⟨c1, u, c2, v, c3, rfl, h1, h2, h3, hu, hv⟩)
    · rw [reMatch_alt]
      refine Or.inr ?_
      rw [reMatch_alt]
      refine Or.inr ?_
      rw [reMatch_alt]
      refine Or.inr ?_
      rw [reMatch_alt]
      exact Or.inl ((reMatch_seq3 _ _ _ _).2
        ⟨c1, u, c2, v, c3, rfl, h1, h2, h3, hu, hv⟩)
    · rw [reMatch_alt]
      refine Or.inr ?_
      rw [reMatch_alt]
      refine Or.inr ?_
      rw [reMatch_alt]
      refine Or.inr ?_
      rw [reMatch_alt]
      refine Or.inr ?_
      rw [reMatch_alt]
      exact Or.inl ((reMatch_seq3 _ _ _ _).2
        ⟨c1, u, c2, v, c3, rfl, h1, h2, h3, hu, hv⟩)
    · rw [reMatch_alt]
      refine Or.inr ?_
      rw [reMatch_alt]
      refine Or.inr ?_
      rw [reMatch_alt]
      refine Or.inr ?_
      rw [reMatch_alt]
      refine Or.inr ?_
      rw [reMatch_alt]
      exact Or.inr ((reMatch_seq3 _ _ _ _).2
        ⟨c1, u, c2, v, c3, rfl, h1, h2, h3, hu, hv⟩)

/-- C9 counterexample: "A\na1" contains an uppercase letter, a lowercase
letter and a digit, yet the six-alternative ordered password regexp does
not match it (`.` does not match a newline in RE2), so the ordered check
is not extensionally equal to order-independent three-class presence. -/
theorem password_regex_order_counterexample :
    reMatchString PasswordRe "A\na1" = false
    ∧ "A\na1".toList.any isUpperAZ = true
    ∧ "A\na1".toList.any isLowerAZ = true
    ∧ "A\na1".toList.any isDigit09 = true := by
  decide

/-- C9 amended: the six-alternative ordered-subsequence password regexp
matches s iff some newline-delimited line of s contains at least one
uppercase letter, one lowercase letter and one digit; in particular, on
newline-free strings it coincides with the order-independent
three-class-presence check. -/
theorem password_regex_extensional (s : String) :
    (reMatchString PasswordRe s = true ↔
      ∃ l ∈ splitNL s.toList,
        l.any isUpperAZ = true ∧ l.any isLowerAZ = true ∧ l.any isDigit09 = true)
    ∧ ('\n' ∉ s.toList →
        (reMatchString PasswordRe s = true ↔
          s.toList.any isUpperAZ = true ∧ s.toList.any isLowerAZ = true
            ∧ s.toList.any isDigit09 = true)) := by
  refine ⟨passwordRe_iff_line s, fun hn => ?_⟩
  rw [passwordRe_iff_line s, splitNL_of_nonl hn]
  simp

/-- Witness for C9's amended theorem at a concrete input. -/
theorem password_regex_extensional_witness :
    reMatchString PasswordRe "Abc123xy" = true ↔
      "Abc123xy".toList.any isUpperAZ = true
        ∧ "Abc123xy".toList.any isLowerAZ = true
        ∧ "Abc123xy".toList.any isDigit09 = true :=
  (password_regex_extensional "Abc123xy").2 (by decide)

/-- C8 counterexample: "abcdefg1" is non-empty, has no surrounding
whitespace, lies within the length bounds and contains two of the three
character classes (lowercase and digit, no uppercase), yet
`ValidatePasswordFormat` rejects it — so "at least two classes" is not
the accepted rule. -/
theorem password_two_classes_counterexample :
    ValidatePasswordFormat "abcdefg1" = .error ErrPasswordWeak
    ∧ "abcdefg1".toList.any isLowerAZ = true
    ∧ "abcdefg1".toList.any isDigit09 = true
    ∧ "abcdefg1".toList.any isUpperAZ = false := by
  decide

/-- C8 amended: for a non-empty password without surrounding whitespace
and within the length bounds, `ValidatePasswordFormat` accepts iff some
newline-delimited line of the password contains all three character
classes (uppercase, lowercase, digit) — i.e. all three classes, in some
relative ordering not interrupted by a newline, not just two. -/
theorem password_format_three_classes (pwd : String)
    (hne : pwd ≠ "")
    (htrim : pwd = goTrimSpace pwd)
    (hmin : PasswordMinLen ≤ pwd.utf8ByteSize)
    (hmax : pwd.utf8ByteSize ≤ PasswordMaxLen) :
    ValidatePasswordFormat pwd = .ok () ↔
      ∃ l ∈ splitNL pwd.toList,
        l.any isUpperAZ = true ∧ l.any isLowerAZ = true
          ∧ l.any isDigit09 = true := by
  unfold ValidatePasswordFormat
  rw [if_neg (by simp [hne]), if_neg (by rw [← htrim]; simp),
    if_neg (by omega), if_neg (by omega)]
  have hiff := passwordRe_iff_line pwd
  cases hm : reMatchString PasswordRe pwd with
  | true =>
    simp only [hm, Bool.not_true, Bool.false_eq_true, if_false]
    exact ⟨fun _ => hiff.1 hm, fun _ => trivial⟩
  | false =>
    simp only [hm, Bool.not_false, if_true]
    constructor
    · intro h
      exact absurd h (by simp)
    · intro h
      rw [hiff.2 h] at hm
      exact absurd hm (by simp)

/-- Witness for C8's amended theorem at a concrete input. -/
theorem password_format_three_classes_witness :
    ValidatePasswordFormat "Abcdefg1" = .ok () ↔
      ∃ l ∈ splitNL "Abcdefg1".toList,
        l.any isUpperAZ = true ∧ l.any isLowerAZ = true
          ∧ l.any isDigit09 = true :=
  password_format_three_classes "Abcdefg1" (by decide) (by decide) (by decide)
    (by decide)

/-- C10: a password longer than the 30-byte maximum (non-empty, no
surrounding whitespace) is rejected with the too-short wording formatted
with the maximum bound — "password must be at least 30 characters" —
because the valueless `ErrPasswordTooLong` constant repeats the
`ErrPasswordTooShort` template. -/
theorem password_too_long_message (pwd : String)
    (hne : pwd ≠ "")
    (htrim : pwd = goTrimSpace pwd)
    (hlong : PasswordMaxLen < pwd.utf8ByteSize) :
    ValidatePasswordFormat pwd = .error "password must be at least 30 characters" := by
  unfold ValidatePasswordFormat
  have h8 : ¬ (pwd.utf8ByteSize < PasswordMinLen) := by
    rw [show PasswordMinLen = 8 from rfl]
    rw [show PasswordMaxLen = 30 from rfl] at hlong
    omega
  rw [if_neg (by simp [hne]), if_neg (by rw [← htrim]; simp), if_neg h8,
    if_pos hlong]
  decide

/-- Witness for C10 at a concrete input (31 characters). -/
theorem password_too_long_message_witness :
    ValidatePasswordFormat "A234567890123456789012345678901" =
      .error "password must be at least 30 characters" :=
  password_too_long_message "A234567890123456789012345678901" (by decide)
    (by decide) (by decide)

end Agora
